import Mathlib

/-!
Verification of the price-ingestion and monthly-aggregation pipeline.

The repository has two near-duplicate revisions of the same module:
`src/main.py` (called V1 below) and `src/project2/main.py` (called V2).
They share `rename_cols`, `read_csv` and `calc_monthly_ret_and_vol`
almost verbatim but differ in `read_dat` (8 fields with a header line
and strict float conversion in V1; 7 fields, no header skip, tolerant
conversion in V2) and in the deduplication step of `read_files`.

All string manipulation is modelled on `List Char` with structural
recursion so that every definition reduces in the kernel.  Python
floats are modelled as rationals; a raised exception is `Except.error`;
pandas `NaN` cells of an optional statistic are `Option.none`.
File lines are modelled without their terminating newline.
-/

/-- A calendar date, as produced by `pd.to_datetime` (no time component). -/
structure Date where
  year : Nat
  month : Nat
  day : Nat
deriving DecidableEq

/-- Linear index of a date's calendar month (`year * 12 + month - 1`). -/
def ymIdx (d : Date) : Nat := d.year * 12 + (d.month - 1)

/-- Linear index of a date itself, for comparing dates (days are < 32). -/
def dateIdx (d : Date) : Nat := (d.year * 12 + (d.month - 1)) * 32 + d.day

/-- A cell of a pandas data frame: a string, a float (modelled as `ℚ`),
or a parsed datetime. -/
inductive Val where
  | str (s : String)
  | num (q : ℚ)
  | date (d : Date)
deriving DecidableEq

/-- The whitespace characters stripped by Python `str.strip()` (ASCII model). -/
def isPyWS (c : Char) : Bool := c = ' ' || c = '\t' || c = '\n' || c = '\r'

/-- Strip every character of `cs` from both ends of `s`
(Python `str.strip(chars)`). -/
def stripChars (cs : List Char) (s : String) : String :=
  ⟨((s.toList.dropWhile (· ∈ cs)).reverse.dropWhile (· ∈ cs)).reverse⟩

/-- Python `str.strip()` with no argument: strip surrounding whitespace. -/
def pyStripWS (s : String) : String :=
  ⟨((s.toList.dropWhile isPyWS).reverse.dropWhile isPyWS).reverse⟩

/-- Python `str.lower()` (ASCII model). -/
def pyLower (s : String) : String := ⟨s.toList.map Char.toLower⟩

/-- Python `str.upper()` (ASCII model). -/
def pyUpper (s : String) : String := ⟨s.toList.map Char.toUpper⟩

/-- Split a character list at every occurrence of `c`, keeping empty
pieces, exactly like Python `str.split(sep)` for a one-character `sep`. -/
def splitOnChar (c : Char) : List Char → List (List Char)
  | [] => [[]]
  | x :: xs =>
    match splitOnChar c xs with
    | [] => [[]]
    | h :: t => if x = c then [] :: h :: t else (x :: h) :: t

/-- Python `line.split(sep)` for the one-character separators used here. -/
def pySplit (c : Char) (s : String) : List String :=
  (splitOnChar c s.toList).map (fun l => ⟨l⟩)

/-- Python `s.endswith(suffix)`. -/
def pyEndsWith (s suf : String) : Bool := suf.toList.isSuffixOf s.toList

/-- Value of a list of ASCII digits read in base 10. -/
def digitsToNat (l : List Char) : Nat :=
  l.foldl (fun a c => a * 10 + (c.toNat - 48)) 0

/-- Parse a plain unsigned decimal natural number; `none` on anything else. -/
def parseNat (s : String) : Option Nat :=
  if s.toList ≠ [] ∧ s.toList.all (·.isDigit) then some (digitsToNat s.toList)
  else none

/-- Model of `pd.to_datetime` on the date-string shapes this repository
feeds it: `"MM-DD-YYYY"` (the legacy files) and `"YYYY-MM-DD"` (the CSV
files), with surrounding whitespace tolerated; anything else raises. -/
def toDatetime (s : String) : Except String Date :=
  match (pySplit '-' (pyStripWS s)).map parseNat with
  | [some a, some b, some c] =>
      if 1000 ≤ c then .ok ⟨c, a, b⟩
      else if 1000 ≤ a then .ok ⟨a, b, c⟩
      else .error s
  | _ => .error s

/-- Model of Python `float(str)` on plain decimal literals: optional
surrounding whitespace, an optional sign, then digits with at most one
dot and at least one digit; anything else raises (`none`). -/
def pyFloat (s : String) : Option ℚ :=
  let l := ((s.toList.dropWhile isPyWS).reverse.dropWhile isPyWS).reverse
  let sgn : ℚ := if l.headD ' ' = '-' then -1 else 1
  let l2 := if l.headD ' ' = '-' ∨ l.headD ' ' = '+' then l.tail else l
  match splitOnChar '.' l2 with
  | [ip] =>
      if ip ≠ [] ∧ ip.all (·.isDigit) then some (sgn * digitsToNat ip) else none
  | [ip, fp] =>
      if (ip ++ fp) ≠ [] ∧ ip.all (·.isDigit) ∧ fp.all (·.isDigit) then
        some (sgn * ((digitsToNat ip : ℚ) + (digitsToNat fp : ℚ) / (10 : ℚ) ^ fp.length))
      else none
  | _ => none

/-- Python `s.replace(".", "", 1)`: drop the first dot, if any. -/
def removeFirstDot : List Char → List Char
  | [] => []
  | c :: t => if c = '.' then t else c :: removeFirstDot t

/-- V2's numeric guard: Python `s.replace(".", "", 1).isdigit()`
(ASCII-digit model). -/
def isNumericV2 (s : String) : Bool :=
  let l := removeFirstDot s.toList
  !l.isEmpty && l.all (·.isDigit)

deriving instance DecidableEq for Except

attribute [local semireducible] Rat.add Rat.mul Rat.inv Rat.sub Rat.ofScientific

/-- One row of a pandas data frame, as an association list from column
name to cell value, in column order. -/
abbrev Row : Type := List (String × Val)

/-- Value of column `k` in a row; pandas would hold `NaN` for a missing
column, which no code path here reads back. -/
def lookupVal (r : Row) (k : String) : Val :=
  ((r.find? (fun p => p.1 = k)).map Prod.snd).getD (.str "NA")

/-- Model of `rename_cols` (identical in both revisions): snake-case every column
name, then rename the `prc_col` column to `"price"`.
Python: `lower().strip().replace("-", "_").replace(" ", "_")`, then
`df.rename(columns={prc_col: "price"})`. -/
def normalizeName (s : String) : String :=
  ⟨(pyStripWS (pyLower s)).toList.map
    (fun c => if c = '-' then '_' else if c = ' ' then '_' else c)⟩

/-- Apply `rename_cols` to one row's column names. -/
def renameCols (prcCol : String) (r : Row) : Row :=
  r.map (fun p =>
    (if normalizeName p.1 = prcCol then "price" else normalizeName p.1, p.2))

/-- The canonical `[ticker, date, price]` projection that `read_csv` and
V1's `read_dat` return (the merged "daily panel" rows). -/
structure CanonRec where
  ticker : Val
  date : Val
  price : Val
deriving DecidableEq

/-- The three candidate splits tried on each legacy line, in source
order: comma, tab, single space. -/
def splits (line : String) : List (List String) :=
  [pySplit ',' line, pySplit '\t' line, pySplit ' ' line]

/-- The `if/elif/elif` delimiter search of both `read_dat` revisions:
take the first split that yields exactly `n` fields, whether or not any
field is empty; `none` means the line is silently skipped. -/
def findRowN (n : Nat) (line : String) : Option (List String) :=
  (splits line).find? (fun tks => tks.length = n)

/-- V1 (`src/main.py`) template key order: the dict literal
`{"Ticker", 'Volume', 'Open', 'Close', 'High', 'Low', 'Adj Close', 'Date'}`
determines which positional field lands in which column. -/
def V1keys : List String :=
  ["Ticker", "Volume", "Open", "Close", "High", "Low", "Adj Close", "Date"]

/-- V2 (`src/project2/main.py`) template key order. -/
def V2keys : List String :=
  ["Ticker", "Volume", "Date", "Adj Close", "Close", "Open", "High"]

/-- V1 strips quotes and spaces from every field: `row[i].strip('\x27\x22 ')`. -/
def V1strip (s : String) : String := stripChars ['\'', '"', ' '] s

/-- V2 strips only quotes: `v.strip('\x22\x27')` — no whitespace. -/
def V2strip (s : String) : String := stripChars ['"', '\''] s

/-- Python `float()` as the code calls it: the parsed value, or a raised
`ValueError` carrying the offending string. -/
def floatOrRaise (s : String) : Except String ℚ :=
  match pyFloat s with
  | some q => .ok q
  | none => .error s

/-- V1's row assembly: every field is stripped, then `float()` is applied
to Volume, Adj Close, Close, Open and High (in that source order) and
`pd.to_datetime` to Date; any failure raises out of `read_dat`.
`Low` is never converted and stays a string. -/
def V1row (tokens : List String) : Except String Row := do
  let t := tokens.map V1strip
  let g := fun (i : Nat) => t.getD i ""
  let vol ← floatOrRaise (g 1)
  let adj ← floatOrRaise (g 6)
  let cls ← floatOrRaise (g 3)
  let opn ← floatOrRaise (g 2)
  let hi ← floatOrRaise (g 4)
  let dt ← toDatetime (g 7)
  .ok [("Ticker", .str (g 0)), ("Volume", .num vol), ("Open", .num opn),
       ("Close", .num cls), ("High", .num hi), ("Low", .str (g 5)),
       ("Adj Close", .num adj), ("Date", .date dt)]

/-- V2's per-field conversion: numeric columns are converted only when
`isNumericV2` holds (left as the stripped string otherwise — Python
`float` cannot fail under that guard), the date column raises on parse
failure, everything else stays a string. -/
def V2field (k v : String) : Except String Val :=
  let s := V2strip v
  if k = "Volume" ∨ k = "Adj Close" ∨ k = "Close" ∨ k = "Open" ∨ k = "High" then
    if isNumericV2 s then
      match pyFloat s with
      | some q => .ok (.num q)
      | none => .error s
    else .ok (.str s)
  else if k = "Date" then (toDatetime s).map Val.date
  else .ok (.str s)

/-- V2's row assembly: `for k, v in zip(template.keys(), row)`. -/
def V2row (tokens : List String) : Except String Row :=
  (V2keys.zip tokens).mapM (fun p => (V2field p.1 p.2).map (fun v => (p.1, v)))

/-- Shared loop shape of both `read_dat` revisions: try the delimiters on
each line, skip lines matching none, build a row otherwise (failures
propagate as exceptions). -/
def datLoop (n : Nat) (mk : List String → Except String Row)
    (lines : List String) : Except String (List Row) :=
  lines.foldlM (fun acc line =>
    match findRowN n line with
    | none => .ok acc
    | some tks => do
        let r ← mk tks
        .ok (acc ++ [r])) []

/-- V1 `read_dat`: skips the first line (header), expects 8 fields, then
builds the frame, renames columns and projects to
`df[["ticker", "date", "price"]]`; projecting out of the empty frame of
an all-skipped file raises a `KeyError` in pandas. -/
def V1readDat (prcCol : String) (lines : List String) :
    Except String (List CanonRec) := do
  let recs ← datLoop 8 V1row lines.tail
  let recs := recs.map (renameCols prcCol)
  if recs.isEmpty then .error "KeyError"
  else .ok (recs.map (fun r =>
    ⟨lookupVal r "ticker", lookupVal r "date", lookupVal r "price"⟩))

/-- V2 `read_dat`: no header skip, expects 7 fields, renames columns and
returns the whole frame (no projection). -/
def V2readDat (prcCol : String) (lines : List String) :
    Except String (List Row) := do
  let recs ← datLoop 7 V2row lines
  .ok (recs.map (renameCols prcCol))

/-- Model of `read_csv` (identical in both revisions), on a frame as loaded by
`pd.read_csv` (numeric-looking cells already floats, dates still
strings).  The source slices `return_df = df[["ticker", "date", "price"]]`
— a copy — BEFORE running `df["date"] = pd.to_datetime(df["date"])`, so
the date conversion mutates the original frame only and the returned
records keep the raw date cells; an unparseable date still raises. -/
def read_csv (df : List Row) (ticker prcCol : String) :
    Except String (List CanonRec) :=
  let df2 := df.map (fun r =>
    let r := renameCols prcCol r
    if r.any (fun p => p.1 = "ticker") then
      r.map (fun p => if p.1 = "ticker" then ("ticker", Val.str ticker) else p)
    else r ++ [("ticker", Val.str ticker)])
  let returnDf := df2.map (fun r =>
    (⟨lookupVal r "ticker", lookupVal r "date", lookupVal r "price"⟩ : CanonRec))
  let dateConv := df2.mapM (fun r =>
    match lookupVal r "date" with
    | .str s => (toDatetime s).map Val.date
    | v => .ok v)
  match dateConv with
  | .error e => .error e
  | .ok _ => .ok returnDf

/-- Name resolution for a CSV ticker argument: strip an optional
`"_prc.csv"` suffix (Python `ticker.split("_")[0]`), lower-case. -/
def resolveTicker (t : String) : String :=
  pyLower (if pyEndsWith t "_prc.csv" then (pySplit '_' t).headD "" else t)

/-- Name resolution for a dat-file argument: strip an optional `".dat"`
suffix (Python `dat_name.split(".")[0]`), lower-case. -/
def resolveDat (n : String) : String :=
  pyLower (if pyEndsWith n ".dat" then (pySplit '.' n).headD "" else n)

/-- The data directory, as the two lookup tables the pipeline reads:
CSV frames keyed by resolved ticker (file `<t>_prc.csv`) and legacy
files keyed by resolved name (file `<n>.dat`), as their line lists.
A missing file raises. -/
structure Env where
  csvFiles : String → Option (List Row)
  datFiles : String → Option (List String)

/-- Model of `pd.concat`: raises `ValueError` on an empty list of frames. -/
def pdConcat {α : Type} (l : List (List α)) : Except String (List α) :=
  if l.isEmpty then .error "No objects to concatenate" else .ok l.flatten

/-- Model of `drop_duplicates()` with no subset: keep the first occurrence of
every fully identical row. -/
def dropDupFirst {α : Type} [DecidableEq α] (l : List α) : List α :=
  l.foldl (fun acc r => if r ∈ acc then acc else acc ++ [r]) []

/-- Model of `drop_duplicates(subset=ks, keep="first")`: keep the first row for
each value of the key columns (a missing column in a row reads as `NaN`,
modelled by `none`). -/
def dropDupFirstBy {α β : Type} [DecidableEq β] (f : α → β) (l : List α) : List α :=
  (l.foldl (fun (acc : List α × List β) r =>
    if f r ∈ acc.2 then acc else (acc.1 ++ [r], acc.2 ++ [f r])) ([], [])).1

/-- V1 `read_files`: read each CSV ticker and each dat file (both
argument lists optional — `None` and `[]` behave alike under Python
truthiness), concatenate, and `drop_duplicates()` on whole rows. -/
def V1readFiles (env : Env) (csvTickers datNames : Option (List String))
    (prcCol : String) : Except String (List CanonRec) := do
  let dfs1 ← (csvTickers.getD []).mapM (fun t =>
    let t := resolveTicker t
    match env.csvFiles t with
    | none => .error ("FileNotFoundError: " ++ t)
    | some df => read_csv df t prcCol)
  let dfs2 ← (datNames.getD []).mapM (fun n =>
    let n := resolveDat n
    match env.datFiles n with
    | none => .error ("FileNotFoundError: " ++ n)
    | some lines => V1readDat prcCol lines)
  let all ← pdConcat (dfs1 ++ dfs2)
  .ok (dropDupFirst all)

/-- The columns of a concatenated frame: the union of every row's
columns, in order of first appearance. -/
def framesCols (frames : List (List Row)) : List String :=
  dropDupFirst ((frames.flatten.map (fun r => r.map Prod.fst)).flatten)

/-- Value of column `k` in a row of a concatenated frame, `none` (NaN)
when the row's source frame lacked the column. -/
def cellOpt (r : Row) (k : String) : Option Val :=
  (r.find? (fun p => p.1 = k)).map Prod.snd

/-- V2 `read_files`: same reading, but
`drop_duplicates(subset=["ticker", prc_col], keep="first")`; pandas
raises a `KeyError` when a subset column does not exist in the
concatenated frame — and `rename_cols` has renamed `prc_col` to
`"price"` in every source frame. -/
def V2readFiles (env : Env) (csvTickers datNames : Option (List String))
    (prcCol : String) : Except String (List Row) := do
  let dfs1 ← (csvTickers.getD []).mapM (fun t =>
    let t := resolveTicker t
    match env.csvFiles t with
    | none => .error ("FileNotFoundError: " ++ t)
    | some df => (read_csv df t prcCol).map (List.map (fun (c : CanonRec) =>
        ([("ticker", c.ticker), ("date", c.date), ("price", c.price)] : Row))))
  let dfs2 ← (datNames.getD []).mapM (fun n =>
    let n := resolveDat n
    match env.datFiles n with
    | none => .error ("FileNotFoundError: " ++ n)
    | some lines => V2readDat prcCol lines)
  let dfList := dfs1 ++ dfs2
  let all ← pdConcat dfList
  if ("ticker" ∈ framesCols dfList ∧ prcCol ∈ framesCols dfList) then
    .ok (dropDupFirstBy (fun r => (cellOpt r "ticker", cellOpt r prcCol)) all)
  else .error "KeyError"

/-- One daily observation handed to `calc_monthly_ret_and_vol`, after its
own `pd.to_datetime(df['date'])` and `set_index('date')`. -/
structure CalcRow where
  date : Date
  ticker : String
  price : ℚ
deriving DecidableEq

/-- The list of consecutive month indices from `a` to `b` — the bins of
`resample('ME')`, one per calendar month of the index range. -/
def monthsRange (a b : Nat) : List Nat := (List.range (b + 1 - a)).map (a + ·)

/-- Least month index appearing in a dated series. -/
def minMonth (rows : List (Date × ℚ)) : Nat :=
  ((rows.map (fun r => ymIdx r.1)).min?).getD 0

/-- Greatest month index appearing in a dated series. -/
def maxMonth (rows : List (Date × ℚ)) : Nat :=
  ((rows.map (fun r => ymIdx r.1)).max?).getD 0

/-- The stable sort by index that pandas' `Resampler` performs on the
series before binning (`Grouper._set_grouper` with `sort=True`, a stable
mergesort): ascending dates, ties keeping their original order.
Mathlib's `insertionSort` is stable, so it models the same ordering. -/
def sortByDate (rows : List (Date × ℚ)) : List (Date × ℚ) :=
  rows.insertionSort (fun a b => dateIdx a.1 ≤ dateIdx b.1)

/-- Model of `resample('ME').last()` on one bin: the last observation of
the month after the resampler's stable sort by index — the temporally
last observation, with equal dates resolved positionally; `none` is the
NaN of an empty bin. -/
def lastInMonth (rows : List (Date × ℚ)) (m : Nat) : Option ℚ :=
  (((sortByDate rows).filter (fun r => ymIdx r.1 = m)).map Prod.snd).getLast?

/-- Model of `ticker_df['price'].resample('ME').last()`: one labelled bin per
month from the first to the last month of the index. -/
def monthlyPrices (rows : List (Date × ℚ)) : List (Nat × Option ℚ) :=
  if rows.isEmpty then []
  else (monthsRange (minMonth rows) (maxMonth rows)).map
    (fun m => (m, lastInMonth rows m))

/-- The pad-fill step of `pct_change`: a NaN entry takes the previous
filled value. -/
def padCur (prev v : Option ℚ) : Option ℚ :=
  match v with | some x => some x | none => prev

/-- One `pct_change` entry: `cur / prev - 1`, NaN when either side is. -/
def retOf (prev cur : Option ℚ) : Option ℚ :=
  match prev, cur with
  | some a, some b => some (b / a - 1)
  | _, _ => none

/-- Model of `pct_change` after the default pad-fill, threading the last filled
value. -/
def pctChangeFrom : Option ℚ → List (Option ℚ) → List (Option ℚ)
  | _, [] => []
  | prev, v :: t => retOf prev (padCur prev v) :: pctChangeFrom (padCur prev v) t

/-- Model of `Series.pct_change()` (default `fill_method="pad"`). -/
def pctChange (l : List (Option ℚ)) : List (Option ℚ) := pctChangeFrom none l

/-- Model of `monthly_prices.pct_change().dropna()` as labelled pairs. -/
def monthlyReturns (rows : List (Date × ℚ)) : List (Nat × ℚ) :=
  let mp := monthlyPrices rows
  ((mp.map Prod.fst).zip (pctChange (mp.map Prod.snd))).filterMap
    (fun p => p.2.map (fun v => (p.1, v)))

/-- Model of `ticker_df['price'].pct_change().dropna()`: consecutive positional
quotients, each labelled with the later row's date; the first row
yields NaN and is dropped. -/
def dailyReturns (rows : List (Date × ℚ)) : List (Date × ℚ) :=
  (rows.zip rows.tail).map (fun p => (p.2.1, p.2.2 / p.1.2 - 1))

/-- Sample variance with the N−1 denominator of `Series.std()`
(`ddof=1`); only ever read for lists of length ≥ 2. -/
def sampleVar (l : List ℚ) : ℚ :=
  let n : ℚ := l.length
  let mean := l.sum / n
  (l.map (fun x => (x - mean) ^ 2)).sum / (n - 1)

/-- Model of `daily_returns.resample('ME').std() * np.sqrt(21)`, recorded as the
SQUARE of the emitted value: the code emits `std * √21`, a nonnegative
real determined by its square `21 * variance`, which stays in `ℚ`.
A bin with fewer than two returns has undefined `ddof=1` deviation:
pandas emits NaN there (`none`), never `0.0`. -/
def mvolSqSeries (rows : List (Date × ℚ)) : List (Nat × Option ℚ) :=
  let dr := dailyReturns rows
  if dr.isEmpty then []
  else (monthsRange (minMonth dr) (maxMonth dr)).map (fun m =>
    let bucket := (dr.filter (fun r => ymIdx r.1 = m)).map Prod.snd
    (m, if bucket.length < 2 then none else some (21 * sampleVar bucket)))

/-- Model of `monthly_volatility.loc[date]`: a missing label raises `KeyError`. -/
def seriesLoc (s : List (Nat × Option ℚ)) (m : Nat) : Except String (Option ℚ) :=
  match s.find? (fun p => p.1 = m) with
  | some p => .ok p.2
  | none => .error "KeyError"

/-- One output record of the aggregator.  `mdate` is the month index the
code formats as `"YYYY-MM"`; `mvolSq` is the square of the emitted
volatility (`none` = NaN). -/
structure MonthlyStat where
  mdate : Nat
  ticker : String
  mret : ℚ
  mvolSq : Option ℚ
deriving DecidableEq

/-- The aggregator body for one ticker group: one record per month with
a non-NaN monthly return, volatility looked up by the month label. -/
def calcTicker (t : String) (rows : List (Date × ℚ)) :
    Except String (List MonthlyStat) :=
  (monthlyReturns rows).mapM (fun p =>
    (seriesLoc (mvolSqSeries rows) p.1).map
      (fun v => (⟨p.1, pyUpper t, p.2, v⟩ : MonthlyStat)))

/-- Lexicographic `≤` on character lists (byte order, as Python sorts
ASCII strings). -/
def charListLe : List Char → List Char → Bool
  | [], _ => true
  | _ :: _, [] => false
  | a :: as, b :: bs =>
      if a.toNat < b.toNat then true
      else if a.toNat = b.toNat then charListLe as bs
      else false

/-- Insert into a `charListLe`-sorted list of strings. -/
def insertSorted (x : String) : List String → List String
  | [] => [x]
  | y :: t => if charListLe x.toList y.toList then x :: y :: t
              else y :: insertSorted x t

/-- Insertion sort by `charListLe`. -/
def sortStrings : List String → List String
  | [] => []
  | x :: t => insertSorted x (sortStrings t)

/-- Model of `df.groupby("ticker")` group keys: distinct tickers, sorted
(pandas `sort=True`); rows keep their original order inside a group. -/
def tickersSorted (df : List CalcRow) : List String :=
  sortStrings (dropDupFirst (df.map (fun r => r.ticker)))

/-- The rows of one ticker's group, as the date-indexed price series. -/
def groupRows (df : List CalcRow) (t : String) : List (Date × ℚ) :=
  (df.filter (fun r => r.ticker = t)).map (fun r => (r.date, r.price))

/-- Model of `calc_monthly_ret_and_vol` (identical in both revisions up to the
`'M'`/`'ME'` resample alias): per-ticker monthly returns joined with the
volatility series. -/
def calc_monthly_ret_and_vol (df : List CalcRow) :
    Except String (List MonthlyStat) := do
  let groups ← (tickersSorted df).mapM (fun t => calcTicker t (groupRows df t))
  .ok groups.flatten

/-- Modelled from the spec (§4.1): each accepted token is "trimmed of
surrounding quote characters and whitespace". -/
def specTrim (s : String) : String :=
  stripChars ['"', '\'', ' ', '\t', '\n', '\r'] s

/-- Modelled from the spec (§4.1): `parse_legacy_line` tries comma, tab,
then single space and accepts the first splitter yielding exactly
`expected_field_count` NON-EMPTY tokens, each trimmed of quotes and
whitespace; if none matches the line is silently skipped. -/
def parse_legacy_line (expected : Nat) (line : String) : Option (List String) :=
  ((splits line).find?
    (fun tks => tks.length = expected && tks.all (fun t => t ≠ ""))).map
    (List.map specTrim)

/-- The token lists the V1 parser feeds its row template: first split
with 8 fields, quote-and-space-stripped. -/
def V1tokens (line : String) : Option (List String) :=
  (findRowN 8 line).map (List.map V1strip)

/-- The token lists the V2 parser feeds its row template: first split
with 7 fields, quote-stripped only. -/
def V2tokens (line : String) : Option (List String) :=
  (findRowN 7 line).map (List.map V2strip)

/-- The column order the spec asserts for 7-field legacy rows. -/
def specKeys7 : List String :=
  ["ticker", "volume", "date", "adj_close", "close", "open", "high"]

/-- The column order the spec asserts for 8-field legacy rows
(7-field order plus "low"). -/
def specKeys8 : List String := specKeys7 ++ ["low"]

/-- V2's stored cell for a numeric column: converted when the guard
holds, kept as the (stripped) string otherwise. -/
def v2num (s : String) : Val :=
  if isNumericV2 s then .num ((pyFloat s).getD 0) else .str s

/-- Strict date-ascending check on aggregator input rows. -/
def strictByDate : List CalcRow → Bool
  | [] => true
  | [_] => true
  | a :: b :: t => decide (dateIdx a.date < dateIdx b.date) && strictByDate (b :: t)

/-- A CSV frame as `pd.read_csv` loads `aaa_prc.csv`: one row, date still
a string, price already numeric. -/
def csvRows1 : List Row := [[("Date", Val.str "2020-01-31"), ("Adj Close", Val.num 101)]]

/-- A legacy file whose only data row covers the same ticker and date as
`csvRows1` with a different adj_close (99 ≠ 101). -/
def datLines1 : List String := ["header", "aaa,10,100,100,102,98,99,01-31-2020"]

/-- Data directory holding `aaa_prc.csv` and `data1.dat`. -/
def env1 : Env :=
  { csvFiles := fun s => if s = "aaa" then some csvRows1 else none
    datFiles := fun s => if s = "data1" then some datLines1 else none }

/-- Two legacy files disagreeing on the price of (aaa, 2020-01-31). -/
def datLines2a : List String := ["header", "aaa,10,100,100,102,98,99,01-31-2020"]

/-- Second legacy file for the duplicate-key scenario. -/
def datLines2b : List String := ["header", "aaa,10,100,100,102,98,101,01-31-2020"]

/-- Data directory holding `d1.dat` and `d2.dat`. -/
def env2 : Env :=
  { csvFiles := fun _ => none
    datFiles := fun s =>
      if s = "d1" then some datLines2a
      else if s = "d2" then some datLines2b else none }

/-- The merged panel `read_files` produces from `env2`. -/
def out2 : List CanonRec :=
  [⟨.str "aaa", .date ⟨2020, 1, 31⟩, .num 99⟩,
   ⟨.str "aaa", .date ⟨2020, 1, 31⟩, .num 101⟩]

/-- An empty data directory. -/
def envEmpty : Env := { csvFiles := fun _ => none, datFiles := fun _ => none }

/-- Two price observations in consecutive months. -/
def rowsW3 : List (Date × ℚ) := [(⟨2020, 1, 31⟩, 100), (⟨2020, 2, 28⟩, 110)]

/-- Aggregator output for `rowsW3`. -/
def outW3 : List MonthlyStat := [⟨ymIdx ⟨2020, 2, 1⟩, "AAA", 1/10, none⟩]

/-- Three price observations: one January month-end, two February days. -/
def rowsW4 : List (Date × ℚ) :=
  [(⟨2020, 1, 31⟩, 100), (⟨2020, 2, 1⟩, 110), (⟨2020, 2, 2⟩, 121)]

/-- Aggregator output for `rowsW4`. -/
def outW4 : List MonthlyStat := [⟨ymIdx ⟨2020, 2, 1⟩, "AAA", 21/100, some 0⟩]

/-- The emitted record for February 2020 in `outW4`. -/
def statW4 : MonthlyStat := ⟨ymIdx ⟨2020, 2, 1⟩, "AAA", 21/100, some 0⟩

/-- A date-sorted single-ticker daily panel. -/
def rows5s : List CalcRow :=
  [⟨⟨2020, 1, 31⟩, "aaa", 100⟩, ⟨⟨2020, 2, 1⟩, "aaa", 110⟩,
   ⟨⟨2020, 2, 2⟩, "aaa", 121⟩, ⟨⟨2020, 2, 3⟩, "aaa", 1331/10⟩]

/-- The same records with the last two rows swapped (out of date order). -/
def rows5p : List CalcRow :=
  [⟨⟨2020, 1, 31⟩, "aaa", 100⟩, ⟨⟨2020, 2, 1⟩, "aaa", 110⟩,
   ⟨⟨2020, 2, 3⟩, "aaa", 1331/10⟩, ⟨⟨2020, 2, 2⟩, "aaa", 121⟩]

/-- Aggregator output for `rows5s`: February month-end price 133.1 gives
mret 331/1000; the three February daily returns are all 1/10, so the
volatility (squared) is 0. -/
def outC5s : List MonthlyStat :=
  [⟨ymIdx ⟨2020, 2, 1⟩, "AAA", 331/1000, some 0⟩]

/-- Aggregator output for `rows5p`: the resampler sorts by date, so the
February month-end price is still 133.1 and mret 331/1000, but the
positional daily returns become 1/10, 21/100, -1/11, giving a nonzero
volatility. -/
def outC5p : List MonthlyStat :=
  [⟨ymIdx ⟨2020, 2, 1⟩, "AAA", 331/1000,
    some (21 * sampleVar [1/10, 21/100, -1/11])⟩]

/-- A two-row date-sorted panel for the order-invariance witness. -/
def rowsW5 : List CalcRow :=
  [⟨⟨2020, 1, 31⟩, "aaa", 100⟩, ⟨⟨2020, 2, 28⟩, "aaa", 110⟩]

/-- A well-formed comma-delimited 7-field legacy line. -/
def lineW6 : String := "aaa,10,01-31-2020,101,100,99,102"

/-- V1 legacy file whose data row has a non-numeric Volume field. -/
def datLines7a : List String := ["hdr", "aaa,abc,2,3,4,5,6,01-31-2020"]

/-- V2 legacy file whose row has a non-numeric Adj Close field. -/
def datLines7b : List String := ["aaa,10,01-31-2020,abc,100,99,102"]

theorem except_bind_ok {ε α β : Type} {e : Except ε α} {f : α → Except ε β} {b : β}
    (h : e >>= f = .ok b) : ∃ a, e = .ok a ∧ f a = .ok b := by
  cases e with
  | error e => exact absurd h (by simp [Bind.bind, Except.bind])
  | ok a => exact ⟨a, rfl, h⟩

theorem dropDupFirst_go_nodup {α : Type} [DecidableEq α] (l acc : List α)
    (h : acc.Nodup) :
    (l.foldl (fun acc r => if r ∈ acc then acc else acc ++ [r]) acc).Nodup := by
  induction l generalizing acc with
  | nil => simpa using h
  | cons x t ih =>
      simp only [List.foldl_cons]
      by_cases hx : x ∈ acc
      · rw [if_pos hx]; exact ih _ h
      · rw [if_neg hx]
        refine ih _ ?_
        simp [List.nodup_append, h, hx]

theorem dropDupFirst_nodup {α : Type} [DecidableEq α] (l : List α) :
    (dropDupFirst l).Nodup := dropDupFirst_go_nodup l [] List.nodup_nil

/-- C1. The claim says a CSV-origin and a legacy-origin record for the
same ticker and date with different prices leave only the CSV price in the
merged panel.  The code (V1) only drops exact duplicate rows, so both
prices survive: with `aaa_prc.csv` giving (aaa, 2020-01-31, 101) and
`data1.dat` giving (aaa, 2020-01-31, 99), `read_files` returns both
records — contradicting its own docstring "If an observation is present
in both files, prioritize CSV".  (The V2 revision instead raises a
`KeyError`, since its dedup subset names the already-renamed price
column.)  This theorem evaluates the code at that failing input. -/
theorem read_files_keeps_conflicting_legacy_price :
    V1readFiles env1 (some ["aaa"]) (some ["data1"]) "adj_close" =
      .ok [⟨.str "aaa", .str "2020-01-31", .num 101⟩,
           ⟨.str "aaa", .date ⟨2020, 1, 31⟩, .num 99⟩] := by decide

/-- C2 (counterexample). Two legacy sources disagreeing on the price
of (aaa, 2020-01-31) both survive the merge: the panel has two price
records for one (ticker, date) pair, refuting the exactly-one invariant. -/
theorem merged_panel_two_records_same_ticker_date :
    V1readFiles env2 none (some ["d1", "d2"]) "adj_close" = .ok out2 ∧
    (∃ r1 ∈ out2, ∃ r2 ∈ out2, r1.ticker = r2.ticker ∧ r1.date = r2.date ∧
      r1.price ≠ r2.price) := by
  constructor
  · decide
  · exact ⟨⟨.str "aaa", .date ⟨2020, 1, 31⟩, .num 99⟩, by decide,
      ⟨.str "aaa", .date ⟨2020, 1, 31⟩, .num 101⟩, by decide, by decide⟩

/-- C2 (amended). What the merge does guarantee: the panel never
holds two fully identical (ticker, date, price) records — `drop_duplicates()`
keeps the first occurrence of each exact row — but distinct prices for the
same (ticker, date) may coexist, as the counterexample shows. -/
theorem read_files_output_nodup (env : Env) (ct dn : Option (List String))
    (p : String) (out : List CanonRec)
    (h : V1readFiles env ct dn p = .ok out) : out.Nodup := by
  unfold V1readFiles at h
  obtain ⟨d1, h1, h⟩ := except_bind_ok h
  obtain ⟨d2, h2, h⟩ := except_bind_ok h
  obtain ⟨all, h3, h⟩ := except_bind_ok h
  injection h with h
  subst h
  exact dropDupFirst_nodup all

theorem read_files_output_nodup_witness :
    V1readFiles env2 none (some ["d1", "d2"]) "adj_close" = .ok out2 ∧ out2.Nodup :=
  ⟨by decide, read_files_output_nodup env2 none (some ["d1", "d2"]) "adj_close" out2 (by decide)⟩

/-- C9. The claim says every record `read_csv` returns carries a
parsed calendar date.  The source computes
`return_df = df[["ticker", "date", "price"]]` — a copy — and only then
runs `df["date"] = pd.to_datetime(df["date"])`, mutating the original
frame; the returned records keep the raw date strings.  Evaluating the
code on a one-row frame: the returned date is the string
`"2020-01-31"`, not a parsed date. -/
theorem read_csv_returns_raw_date_string :
    read_csv csvRows1 "aaa" "adj_close" =
      .ok [⟨.str "aaa", .str "2020-01-31", .num 101⟩] ∧
    (∀ d : Date, Val.str "2020-01-31" ≠ Val.date d) := by
  exact ⟨by decide, fun d => by simp⟩

/-- C10. With both `csv_tickers` and `dat_files` omitted, `None` or
empty, `read_files` reaches `pd.concat` with an empty frame list, which
raises `ValueError: No objects to concatenate` — in both revisions —
instead of returning an empty panel. -/
theorem read_files_empty_inputs_raise (env : Env) (ct dn : Option (List String))
    (p : String) (hc : ct = none ∨ ct = some []) (hd : dn = none ∨ dn = some []) :
    V1readFiles env ct dn p = .error "No objects to concatenate" ∧
    V2readFiles env ct dn p = .error "No objects to concatenate" := by
  rcases hc with rfl | rfl <;> rcases hd with rfl | rfl <;> exact ⟨rfl, rfl⟩

theorem read_files_empty_inputs_raise_witness :
    V1readFiles envEmpty none (some []) "adj_close" = .error "No objects to concatenate" ∧
    V2readFiles envEmpty none (some []) "adj_close" = .error "No objects to concatenate" :=
  read_files_empty_inputs_raise envEmpty none (some []) "adj_close" (Or.inl rfl) (Or.inr rfl)

theorem strictByDate_head_lt (a : CalcRow) (t : List CalcRow)
    (h : strictByDate (a :: t) = true) :
    (∀ x ∈ t, dateIdx a.date < dateIdx x.date) ∧ strictByDate t = true := by
  induction t generalizing a with
  | nil => exact ⟨by simp, rfl⟩
  | cons b u ih =>
      have hab : dateIdx a.date < dateIdx b.date ∧ strictByDate (b :: u) = true := by
        simpa [strictByDate] using h
      obtain ⟨hlt, hrest⟩ := hab
      obtain ⟨hall, _⟩ := ih b hrest
      refine ⟨?_, hrest⟩
      intro x hx
      rcases List.mem_cons.1 hx with rfl | hx
      · exact hlt
      · exact Nat.lt_trans hlt (hall x hx)

theorem strictByDate_pairwise (l : List CalcRow) (h : strictByDate l = true) :
    List.Pairwise (fun a b : CalcRow => dateIdx a.date < dateIdx b.date) l := by
  induction l with
  | nil => exact List.Pairwise.nil
  | cons a t ih =>
      obtain ⟨hall, ht⟩ := strictByDate_head_lt a t h
      exact List.Pairwise.cons hall (ih ht)

theorem find?_congr_on {α : Type} (p q : α → Bool) (L : List α)
    (h : ∀ x ∈ L, p x = q x) : L.find? p = L.find? q := by
  induction L with
  | nil => rfl
  | cons x t ih =>
      have hx := h x (List.mem_cons_self x t)
      by_cases hp : p x = true
      · rw [List.find?_cons_of_pos _ hp, List.find?_cons_of_pos _ (hx ▸ hp)]
      · rw [List.find?_cons_of_neg _ hp, List.find?_cons_of_neg _ (hx ▸ hp)]
        exact ih (fun y hy => h y (List.mem_cons_of_mem x hy))

theorem code_spec_tokens_agree (n : Nat) (f : String → String) (line : String)
    (h : ∀ tks ∈ splits line, tks.length = n → ∀ t ∈ tks, t ≠ "" ∧ f t = specTrim t) :
    ((splits line).find? (fun tks => tks.length = n)).map (List.map f) =
      parse_legacy_line n line := by
  unfold parse_legacy_line
  have hfind : (splits line).find? (fun tks => tks.length = n) =
      (splits line).find?
        (fun tks => tks.length = n && tks.all (fun t => t ≠ "")) := by
    apply find?_congr_on
    intro x hx
    by_cases hl : x.length = n
    · have hall : x.all (fun t => t ≠ "") = true := by
        rw [List.all_eq_true]
        intro t ht
        simpa using (h x hx hl t ht).1
      simp only [hl, hall]
      simp
    · simp [hl]
  rw [hfind]
  cases hf : (splits line).find?
      (fun tks => tks.length = n && tks.all (fun t => t ≠ "")) with
  | none => rfl
  | some tks =>
      have hmem := List.mem_of_find?_eq_some hf
      have hp := List.find?_some hf
      have hlen : tks.length = n := by
        simp only [Bool.and_eq_true, decide_eq_true_eq] at hp
        exact hp.1
      simp only [Option.map_some']
      congr 1
      exact List.map_congr_left (fun t ht => (h tks hmem hlen t ht).2)

/-- C6 (counterexample). The claim demands exactly `n` NON-EMPTY
tokens and whitespace trimming.  The code checks only the field count:
a line with an empty field is accepted (the spec's parser skips it), and
the V2 parser strips quotes but not whitespace, so a token keeps its
leading space where the spec's parser trims it. -/
theorem parser_accepts_empty_and_untrimmed_tokens :
    findRowN 7 "a,,c,d,e,f,g" = some ["a", "", "c", "d", "e", "f", "g"] ∧
    parse_legacy_line 7 "a,,c,d,e,f,g" = none ∧
    V2tokens "aaa,10,01-31-2020, 101,100,99,102" =
      some ["aaa", "10", "01-31-2020", " 101", "100", "99", "102"] ∧
    parse_legacy_line 7 "aaa,10,01-31-2020, 101,100,99,102" =
      some ["aaa", "10", "01-31-2020", "101", "100", "99", "102"] :=
  ⟨by decide, by decide, by decide, by decide⟩

/-- C6 (amended). The parser accepts the first of comma/tab/space
whose split yields exactly the expected field count — empty tokens and
all — and silently skips lines where none matches; V1 strips quotes and
spaces from each token, V2 only quotes.  On lines whose candidate tokens
are non-empty and carry no surrounding whitespace beyond what the
version strips, this agrees with the spec's `parse_legacy_line` for both
the 8-field (V1) and 7-field (V2) variants. -/
theorem parse_line_agreement (line : String)
    (h8 : ∀ tks ∈ splits line, tks.length = 8 →
      ∀ t ∈ tks, t ≠ "" ∧ V1strip t = specTrim t)
    (h7 : ∀ tks ∈ splits line, tks.length = 7 →
      ∀ t ∈ tks, t ≠ "" ∧ V2strip t = specTrim t) :
    V1tokens line = parse_legacy_line 8 line ∧
    V2tokens line = parse_legacy_line 7 line :=
  ⟨code_spec_tokens_agree 8 V1strip line h8, code_spec_tokens_agree 7 V2strip line h7⟩

theorem parse_line_agreement_witness :
    V1tokens lineW6 = parse_legacy_line 8 lineW6 ∧
    V2tokens lineW6 = parse_legacy_line 7 lineW6 :=
  parse_line_agreement lineW6 (by decide) (by decide)

theorem minMonth_le_maxMonth (rows : List (Date × ℚ)) (hne : rows ≠ []) :
    minMonth rows ≤ maxMonth rows := by
  unfold minMonth maxMonth
  cases hmin : (rows.map (fun r => ymIdx r.1)).min? with
  | none =>
      rw [List.min?_eq_none_iff] at hmin
      exact absurd (List.map_eq_nil_iff.1 hmin) hne
  | some a =>
      cases hmax : (rows.map (fun r => ymIdx r.1)).max? with
      | none =>
          rw [List.max?_eq_none_iff] at hmax
          exact absurd (List.map_eq_nil_iff.1 hmax) hne
      | some b =>
          simp only [Option.getD_some]
          obtain ⟨hmem, _⟩ := List.min?_eq_some_iff'.1 hmin
          obtain ⟨_, hub⟩ := List.max?_eq_some_iff'.1 hmax
          exact hub a hmem

theorem monthsRange_eq_cons (a b : Nat) (h : a ≤ b) :
    monthsRange a b = a :: (List.range (b - a)).map (fun i => a + 1 + i) := by
  unfold monthsRange
  rw [show b + 1 - a = (b - a) + 1 from by omega, List.range_succ_eq_map]
  simp only [List.map_cons, Nat.add_zero, List.map_map]
  congr 1
  exact List.map_congr_left (fun i _ => by simp [Function.comp]; omega)

theorem pct_consecutive (P : Nat → ℚ) :
    ∀ (k a : Nat),
      pctChangeFrom (some (P a))
        (((List.range k).map (fun i => a + 1 + i)).map (fun m => some (P m))) =
      (List.range k).map (fun i => some (P (a + 1 + i) / P (a + i) - 1)) := by
  intro k
  induction k with
  | zero => intro a; rfl
  | succ k ih =>
      intro a
      rw [List.range_succ_eq_map]
      simp only [List.map_cons, Nat.add_zero, List.map_map]
      simp only [pctChangeFrom, padCur, retOf]
      congr 1
      have L1 : (List.range k).map ((fun m => some (P m)) ∘ (fun i => a + 1 + i) ∘ Nat.succ) =
          (List.range k).map ((fun m => some (P m)) ∘ (fun i => a + 1 + 1 + i)) :=
        List.map_congr_left (fun i _ => by
          simp only [Function.comp]
          rw [show a + 1 + Nat.succ i = a + 1 + 1 + i from by omega])
      have L2 : (List.range k).map
            ((fun i => some (P (a + 1 + i) / P (a + i) - 1)) ∘ Nat.succ) =
          (List.range k).map (fun i => some (P (a + 1 + 1 + i) / P (a + 1 + i) - 1)) :=
        List.map_congr_left (fun i _ => by
          simp only [Function.comp]
          rw [show a + 1 + Nat.succ i = a + 1 + 1 + i from by omega,
              show a + Nat.succ i = a + 1 + i from by omega])
      rw [L1, L2]
      have ih2 := ih (a + 1)
      simp only [List.map_map] at ih2
      exact ih2

theorem filterMap_some_fn {α β : Type} (g : α → β) (l : List α) :
    l.filterMap (fun x => some (g x)) = l.map g := by
  induction l with
  | nil => rfl
  | cons x t ih => simp [List.filterMap_cons, ih]

theorem lastInMonth_some (rows : List (Date × ℚ)) (m : Nat)
    (h : lastInMonth rows m ≠ none) :
    lastInMonth rows m = some ((lastInMonth rows m).getD 0) := by
  cases hc : lastInMonth rows m with
  | none => exact absurd hc h
  | some q => rfl

theorem monthlyReturns_formula (rows : List (Date × ℚ)) (hne : rows ≠ [])
    (hgap : ∀ m ∈ monthsRange (minMonth rows) (maxMonth rows),
      lastInMonth rows m ≠ none) :
    monthlyReturns rows =
      (monthsRange (minMonth rows + 1) (maxMonth rows)).map
        (fun m => (m,
          (lastInMonth rows m).getD 0 / (lastInMonth rows (m - 1)).getD 0 - 1)) := by
  have hab := minMonth_le_maxMonth rows hne
  set a := minMonth rows with ha
  set b := maxMonth rows with hb
  set P : Nat → ℚ := fun m => (lastInMonth rows m).getD 0 with hP
  have hmp : monthlyPrices rows =
      (monthsRange a b).map (fun m => (m, lastInMonth rows m)) := by
    unfold monthlyPrices
    rw [if_neg (by simpa using hne)]
  rw [show monthlyReturns rows =
      ((((monthlyPrices rows).map Prod.fst).zip
        (pctChange ((monthlyPrices rows).map Prod.snd))).filterMap
        (fun p => p.2.map (fun v => (p.1, v)))) from rfl]
  rw [hmp]
  have hfst : ((monthsRange a b).map (fun m => (m, lastInMonth rows m))).map Prod.fst
      = monthsRange a b := by
    rw [List.map_map]
    have hid : Prod.fst ∘ (fun m : Nat => (m, lastInMonth rows m)) = id := rfl
    rw [hid, List.map_id]
  have hsnd : ((monthsRange a b).map (fun m => (m, lastInMonth rows m))).map Prod.snd
      = (monthsRange a b).map (fun m => some (P m)) := by
    rw [List.map_map]
    refine List.map_congr_left (fun m hm => ?_)
    show lastInMonth rows m = some (P m)
    exact lastInMonth_some rows m (hgap m hm)
  rw [hfst, hsnd]
  rw [monthsRange_eq_cons a b hab]
  simp only [List.map_cons]
  unfold pctChange
  simp only [pctChangeFrom, padCur, retOf]
  rw [pct_consecutive P (b - a) a]
  simp only [List.zip_cons_cons, List.filterMap_cons, Option.map_none']
  rw [List.zip_map']
  rw [List.filterMap_map]
  have hcomp : (fun p : Nat × Option ℚ => p.2.map (fun v => (p.1, v))) ∘
      (fun i => (a + 1 + i, some (P (a + 1 + i) / P (a + i) - 1))) =
      fun i => some (a + 1 + i, P (a + 1 + i) / P (a + i) - 1) := by
    funext i; rfl
  rw [hcomp, filterMap_some_fn]
  have hrange : monthsRange (a + 1) b = (List.range (b - a)).map (fun i => a + 1 + i) := by
    unfold monthsRange
    rw [show b + 1 - (a + 1) = b - a from by omega]
  rw [hrange, List.map_map]
  refine List.map_congr_left (fun i _ => ?_)
  simp only [Function.comp]
  rw [show a + 1 + i - 1 = a + i from by omega]

theorem mapM_stat_proj (mv : List (Nat × Option ℚ)) (T : String) :
    ∀ (L : List (Nat × ℚ)) (out : List MonthlyStat),
    L.mapM (fun p => (seriesLoc mv p.1).map
      (fun v => (⟨p.1, T, p.2, v⟩ : MonthlyStat))) = .ok out →
    out.map (fun s => (s.mdate, s.mret)) = L := by
  intro L
  induction L with
  | nil =>
      intro out h
      simp only [List.mapM_nil] at h
      cases h
      rfl
  | cons p tl ih =>
      intro out h
      rw [List.mapM_cons] at h
      obtain ⟨y, hy, h⟩ := except_bind_ok h
      obtain ⟨ys, hys, h⟩ := except_bind_ok h
      cases h
      have hyp : y.mdate = p.1 ∧ y.mret = p.2 := by
        cases hsl : seriesLoc mv p.1 with
        | error e => rw [hsl] at hy; exact absurd hy (by simp [Except.map])
        | ok v =>
            rw [hsl] at hy
            simp only [Except.map] at hy
            cases hy
            exact ⟨rfl, rfl⟩
      simp only [List.map_cons, hyp.1, hyp.2, ih ys hys]

theorem calcTicker_ok_proj (t : String) (rows : List (Date × ℚ))
    (out : List MonthlyStat) (h : calcTicker t rows = .ok out) :
    out.map (fun s => (s.mdate, s.mret)) = monthlyReturns rows :=
  mapM_stat_proj (mvolSqSeries rows) (pyUpper t) (monthlyReturns rows) out h

/-- C3. For every ticker group, the emitted (month, return) series is
exactly the pct-change of month-end prices: the return of month `m` is
`last-price(m) / last-price(m-1) - 1` for every month after the first of
the ticker's range, and the first month never appears in the output.
Hypotheses: the group is nonempty and gap-free (every month in its range
has an observation), as the source assumes ("Assume no gaps in the daily
time series of each ticker"); sortedness is not needed for this shape
because `resample().last()` is read positionally. -/
theorem monthly_return_formula_and_first_month_dropped (t : String)
    (rows : List (Date × ℚ)) (out : List MonthlyStat) (hne : rows ≠ [])
    (hgap : ∀ m ∈ monthsRange (minMonth rows) (maxMonth rows),
      lastInMonth rows m ≠ none)
    (hout : calcTicker t rows = .ok out) :
    out.map (fun s => (s.mdate, s.mret)) =
      (monthsRange (minMonth rows + 1) (maxMonth rows)).map
        (fun m => (m,
          (lastInMonth rows m).getD 0 / (lastInMonth rows (m - 1)).getD 0 - 1)) ∧
    ∀ s ∈ out, s.mdate ≠ minMonth rows := by
  have hproj := calcTicker_ok_proj t rows out hout
  have hform := monthlyReturns_formula rows hne hgap
  refine ⟨hproj.trans hform, ?_⟩
  intro s hs hmin
  have hmem : (s.mdate, s.mret) ∈ out.map (fun s => (s.mdate, s.mret)) :=
    List.mem_map_of_mem _ hs
  rw [hproj.trans hform] at hmem
  obtain ⟨m, hm, he⟩ := List.mem_map.1 hmem
  have hm2 : s.mdate ∈ monthsRange (minMonth rows + 1) (maxMonth rows) := by
    obtain ⟨he1, _⟩ := Prod.mk.injEq .. ▸ he
    exact he1 ▸ hm
  unfold monthsRange at hm2
  obtain ⟨i, _, hi⟩ := List.mem_map.1 hm2
  omega

theorem monthly_return_formula_witness :
    outW3.map (fun s => (s.mdate, s.mret)) =
      (monthsRange (minMonth rowsW3 + 1) (maxMonth rowsW3)).map
        (fun m => (m,
          (lastInMonth rowsW3 m).getD 0 / (lastInMonth rowsW3 (m - 1)).getD 0 - 1)) ∧
    ∀ s ∈ outW3, s.mdate ≠ minMonth rowsW3 :=
  monthly_return_formula_and_first_month_dropped "aaa" rowsW3 outW3
    (by decide) (by decide) (by decide)

theorem mapM_ok_mem {α β : Type} (f : α → Except String β) :
    ∀ (L : List α) (out : List β), L.mapM f = .ok out →
      ∀ y ∈ out, ∃ x ∈ L, f x = .ok y := by
  intro L
  induction L with
  | nil =>
      intro out h y hy
      simp only [List.mapM_nil] at h
      cases h
      exact absurd hy (List.not_mem_nil y)
  | cons x tl ih =>
      intro out h y hy
      rw [List.mapM_cons] at h
      obtain ⟨z, hz, h⟩ := except_bind_ok h
      obtain ⟨zs, hzs, h⟩ := except_bind_ok h
      cases h
      rcases List.mem_cons.1 hy with rfl | hy2
      · exact ⟨x, List.mem_cons_self x tl, hz⟩
      · obtain ⟨w, hw, hfw⟩ := ih zs hzs y hy2
        exact ⟨w, List.mem_cons_of_mem x hw, hfw⟩

theorem seriesLoc_mvol (rows : List (Date × ℚ)) (m : Nat) (v : Option ℚ)
    (h : seriesLoc (mvolSqSeries rows) m = .ok v) :
    v = (if (((dailyReturns rows).filter (fun r => ymIdx r.1 = m)).map Prod.snd).length < 2
         then none
         else some (21 * sampleVar
           (((dailyReturns rows).filter (fun r => ymIdx r.1 = m)).map Prod.snd))) := by
  unfold seriesLoc at h
  cases hf : (mvolSqSeries rows).find? (fun p => p.1 = m) with
  | none => rw [hf] at h; cases h
  | some pr =>
      rw [hf] at h
      cases h
      have hp := List.find?_some hf
      have hmem := List.mem_of_find?_eq_some hf
      have hm : pr.1 = m := by simpa using hp
      unfold mvolSqSeries at hmem
      by_cases hdr : (dailyReturns rows).isEmpty
      · rw [if_pos hdr] at hmem
        exact absurd hmem (List.not_mem_nil pr)
      · rw [if_neg hdr] at hmem
        obtain ⟨mm, _, he⟩ := List.mem_map.1 hmem
        have h1 : mm = m := by
          have := congrArg Prod.fst he
          simpa [hm] using this
        have h2 := congrArg Prod.snd he
        subst h1
        exact h2.symm

/-- C4. For every record the aggregator emits, its volatility field is
determined by the daily returns dated in that record's month: with fewer
than two such returns it is NaN (never `0.0`), and with at least two it
is `std(ddof=1) * sqrt(21)` — recorded here by its square
`21 * sampleVar`, together with the real-number identity
`sqrt(21 * var) = sqrt(var) * sqrt(21)` linking the squared form to the
code's `std * sqrt(21)`. -/
theorem monthly_vol_sample_std_and_missing_under_two (t : String)
    (rows : List (Date × ℚ)) (out : List MonthlyStat) (st : MonthlyStat)
    (hout : calcTicker t rows = .ok out) (hst : st ∈ out) :
    ((((dailyReturns rows).filter (fun r => ymIdx r.1 = st.mdate)).map Prod.snd).length < 2 →
       st.mvolSq = none) ∧
    (2 ≤ (((dailyReturns rows).filter (fun r => ymIdx r.1 = st.mdate)).map Prod.snd).length →
       st.mvolSq = some (21 * sampleVar
         (((dailyReturns rows).filter (fun r => ymIdx r.1 = st.mdate)).map Prod.snd)) ∧
       Real.sqrt (21 * (sampleVar
           (((dailyReturns rows).filter (fun r => ymIdx r.1 = st.mdate)).map Prod.snd) : ℝ)) =
         Real.sqrt ((sampleVar
           (((dailyReturns rows).filter (fun r => ymIdx r.1 = st.mdate)).map Prod.snd) : ℝ)) *
         Real.sqrt 21) := by
  obtain ⟨p, hpmem, hp⟩ := mapM_ok_mem _ _ out hout st hst
  cases hsl : seriesLoc (mvolSqSeries rows) p.1 with
  | error e => rw [hsl] at hp; exact absurd hp (by simp [Except.map])
  | ok v =>
      rw [hsl] at hp
      simp only [Except.map] at hp
      cases hp
      dsimp only
      have hv := seriesLoc_mvol rows p.1 v hsl
      constructor
      · intro hlt
        rw [hv, if_pos hlt]
      · intro hge
        constructor
        · rw [hv, if_neg (by omega)]
        · rw [Real.sqrt_mul (by norm_num : (0:ℝ) ≤ 21), mul_comm]

theorem monthly_vol_witness :
    ((((dailyReturns rowsW4).filter (fun r => ymIdx r.1 = statW4.mdate)).map Prod.snd).length < 2 →
       statW4.mvolSq = none) ∧
    (2 ≤ (((dailyReturns rowsW4).filter (fun r => ymIdx r.1 = statW4.mdate)).map Prod.snd).length →
       statW4.mvolSq = some (21 * sampleVar
         (((dailyReturns rowsW4).filter (fun r => ymIdx r.1 = statW4.mdate)).map Prod.snd)) ∧
       Real.sqrt (21 * (sampleVar
           (((dailyReturns rowsW4).filter (fun r => ymIdx r.1 = statW4.mdate)).map Prod.snd) : ℝ)) =
         Real.sqrt ((sampleVar
           (((dailyReturns rowsW4).filter (fun r => ymIdx r.1 = statW4.mdate)).map Prod.snd) : ℝ)) *
         Real.sqrt 21) :=
  monthly_vol_sample_std_and_missing_under_two "aaa" rowsW4 outW4 statW4
    (by decide) (by decide)

theorem removeFirstDot_no_dot (l : List Char) (h : '.' ∉ l) :
    removeFirstDot l = l := by
  induction l with
  | nil => rfl
  | cons c t ih =>
      rw [removeFirstDot]
      rw [if_neg (by intro hc; exact h (hc ▸ List.mem_cons_self c t))]
      rw [ih (fun ht => h (List.mem_cons_of_mem c ht))]

theorem splitOnChar_ne_nil (c : Char) (l : List Char) : splitOnChar c l ≠ [] := by
  cases l with
  | nil => simp [splitOnChar]
  | cons x t =>
      rw [splitOnChar]
      cases splitOnChar c t with
      | nil => simp
      | cons h2 t2 => by_cases hx : x = c <;> simp [hx]

theorem splitOnChar_no_sep (c : Char) (l : List Char) (h : c ∉ l) :
    splitOnChar c l = [l] := by
  induction l with
  | nil => rfl
  | cons x t ih =>
      have hx : x ≠ c := fun hc => h (hc ▸ List.mem_cons_self x t)
      rw [splitOnChar, ih (fun ht => h (List.mem_cons_of_mem x ht))]
      simp [hx]

theorem splitOnChar_first (c : Char) (a b : List Char) (h : c ∉ a) :
    splitOnChar c (a ++ c :: b) = a :: (splitOnChar c b).headD [] ::
      (splitOnChar c b).tailD [] := by
  induction a with
  | nil =>
      simp only [List.nil_append]
      rw [splitOnChar]
      cases hs : splitOnChar c b with
      | nil => exact absurd hs (splitOnChar_ne_nil c b)
      | cons h2 t2 => simp
  | cons x t ih =>
      have hx : x ≠ c := fun hc => h (hc ▸ List.mem_cons_self x t)
      rw [List.cons_append, splitOnChar, ih (fun ht => h (List.mem_cons_of_mem x ht))]
      simp [hx]

theorem removeFirstDot_append (a b : List Char) (h : '.' ∉ a) :
    removeFirstDot (a ++ '.' :: b) = a ++ b := by
  induction a with
  | nil => simp [removeFirstDot]
  | cons x t ih =>
      have hx : x ≠ '.' := fun hc => h (hc ▸ List.mem_cons_self x t)
      rw [List.cons_append, removeFirstDot, if_neg hx,
        ih (fun ht => h (List.mem_cons_of_mem x ht))]
      rfl

theorem exists_first_occ {α : Type} [DecidableEq α] (x : α) (l : List α) (h : x ∈ l) :
    ∃ a b, l = a ++ x :: b ∧ x ∉ a := by
  induction l with
  | nil => cases h
  | cons c t ih =>
      by_cases hc : c = x
      · exact ⟨[], t, by rw [hc]; rfl, by simp⟩
      · rcases List.mem_cons.1 h with rfl | ht
        · exact absurd rfl hc
        · obtain ⟨a, b, hab, hna⟩ := ih ht
          exact ⟨c :: a, b, by rw [hab]; rfl, by
            intro hmem
            rcases List.mem_cons.1 hmem with h1 | h2
            · exact hc h1.symm
            · exact hna h2⟩

theorem digit_not_ws (c : Char) (h : c.isDigit = true) : isPyWS c = false := by
  by_contra hws
  have hws2 : isPyWS c = true := by
    cases hb : isPyWS c
    · exact absurd hb hws
    · rfl
  simp only [isPyWS, Bool.or_eq_true, decide_eq_true_eq] at hws2
  rcases hws2 with ((rfl | rfl) | rfl) | rfl <;> exact absurd h (by decide)

theorem digit_ne (c d : Char) (h : c.isDigit = true) (hd : d.isDigit = false) :
    c ≠ d := fun he => by rw [he, hd] at h; cases h

theorem dropWhile_eq_self_of_none (p : Char → Bool) (l : List Char)
    (h : ∀ c ∈ l, p c = false) : l.dropWhile p = l := by
  cases l with
  | nil => rfl
  | cons x t =>
      rw [List.dropWhile_cons, h x (List.mem_cons_self x t)]
      simp

theorem isNumericV2_pyFloat (s : String) (h : isNumericV2 s = true) :
    ∃ q, pyFloat s = some q := by
  unfold isNumericV2 at h
  rw [Bool.and_eq_true] at h
  obtain ⟨hne0, hall0⟩ := h
  have hne : removeFirstDot s.toList ≠ [] := by
    intro he; rw [he] at hne0; simp at hne0
  have hall : ∀ c ∈ removeFirstDot s.toList, c.isDigit = true := by
    intro c hc; exact List.all_eq_true.1 hall0 c hc
  by_cases hdot : '.' ∈ s.toList
  · -- one dot: the split has the form [a, b]
    obtain ⟨a, b, hab, hna⟩ := exists_first_occ '.' s.toList hdot
    have hrm : removeFirstDot s.toList = a ++ b := by
      rw [hab]; exact removeFirstDot_append a b hna
    rw [hrm] at hne hall
    have hnb : '.' ∉ b := by
      intro hb
      exact absurd (hall '.' (List.mem_append.2 (Or.inr hb))) (by decide)
    have hcharsl : ∀ c ∈ s.toList, c.isDigit = true ∨ c = '.' := by
      intro c hc
      rw [hab] at hc
      rcases List.mem_append.1 hc with hc1 | hc2
      · exact Or.inl (hall c (List.mem_append.2 (Or.inl hc1)))
      · rcases List.mem_cons.1 hc2 with rfl | hc3
        · exact Or.inr rfl
        · exact Or.inl (hall c (List.mem_append.2 (Or.inr hc3)))
    have hnws : ∀ c ∈ s.toList, isPyWS c = false := by
      intro c hc
      rcases hcharsl c hc with hd | rfl
      · exact digit_not_ws c hd
      · decide
    have hstrip : ((s.toList.dropWhile isPyWS).reverse.dropWhile isPyWS).reverse
        = s.toList := by
      rw [dropWhile_eq_self_of_none _ _ hnws,
          dropWhile_eq_self_of_none _ _ (fun c hc => hnws c (List.mem_reverse.1 hc)),
          List.reverse_reverse]
    have hhead : s.toList.headD ' ' ≠ '-' ∧ s.toList.headD ' ' ≠ '+' := by
      cases hcl : s.toList with
      | nil => exact ⟨by decide, by decide⟩
      | cons c t =>
          have hc : c.isDigit = true ∨ c = '.' := by
            refine hcharsl c ?_
            rw [hcl]; exact List.mem_cons_self c t
          simp only [List.headD_cons]
          rcases hc with hd | rfl
          · exact ⟨digit_ne c '-' hd (by decide), digit_ne c '+' hd (by decide)⟩
          · exact ⟨by decide, by decide⟩
    have hsplit : splitOnChar '.' s.toList = [a, b] := by
      rw [hab, splitOnChar_first '.' a b hna, splitOnChar_no_sep '.' b hnb]
      rfl
    simp only [pyFloat]
    rw [hstrip, if_neg hhead.1,
        if_neg (by rintro (h1 | h2); exacts [hhead.1 h1, hhead.2 h2]), hsplit]
    dsimp only
    have ha : a.all (fun c => c.isDigit) = true :=
      List.all_eq_true.2 (fun c hc => hall c (List.mem_append.2 (Or.inl hc)))
    have hb : b.all (fun c => c.isDigit) = true :=
      List.all_eq_true.2 (fun c hc => hall c (List.mem_append.2 (Or.inr hc)))
    rw [if_pos ⟨hne, ha, hb⟩]
    exact ⟨_, rfl⟩
  · -- no dot: the split is [l]
    have hrm : removeFirstDot s.toList = s.toList := removeFirstDot_no_dot _ hdot
    rw [hrm] at hne hall
    have hnws : ∀ c ∈ s.toList, isPyWS c = false :=
      fun c hc => digit_not_ws c (hall c hc)
    have hstrip : ((s.toList.dropWhile isPyWS).reverse.dropWhile isPyWS).reverse
        = s.toList := by
      rw [dropWhile_eq_self_of_none _ _ hnws,
          dropWhile_eq_self_of_none _ _ (fun c hc => hnws c (List.mem_reverse.1 hc)),
          List.reverse_reverse]
    have hhead : s.toList.headD ' ' ≠ '-' ∧ s.toList.headD ' ' ≠ '+' := by
      cases hcl : s.toList with
      | nil => exact ⟨by decide, by decide⟩
      | cons c t =>
          have hc : c.isDigit = true := by
            refine hall c ?_
            rw [hcl]; exact List.mem_cons_self c t
          simp only [List.headD_cons]
          exact ⟨digit_ne c '-' hc (by decide), digit_ne c '+' hc (by decide)⟩
    simp only [pyFloat]
    rw [hstrip, if_neg hhead.1,
        if_neg (by rintro (h1 | h2); exacts [hhead.1 h1, hhead.2 h2]),
        splitOnChar_no_sep '.' s.toList hdot]
    dsimp only
    rw [if_pos ⟨hne, List.all_eq_true.2 hall⟩]
    exact ⟨_, rfl⟩

theorem v2field_numeric_ok (k v : String)
    (hk : k = "Volume" ∨ k = "Adj Close" ∨ k = "Close" ∨ k = "Open" ∨ k = "High") :
    V2field k v = .ok (v2num (V2strip v)) := by
  unfold V2field v2num
  rw [if_pos hk]
  by_cases hn : isNumericV2 (V2strip v) = true
  · rw [if_pos hn, if_pos hn]
    obtain ⟨q, hq⟩ := isNumericV2_pyFloat _ hn
    rw [hq]
    rfl
  · rw [if_neg hn, if_neg hn]

theorem getD_map_str (f : String → String) (hf : f "" = "") :
    ∀ (l : List String) (i : Nat), (l.map f).getD i "" = f (l.getD i "")
  | [], _ => by simp [hf]
  | _ :: _, 0 => by simp
  | _ :: t, (i + 1) => by
      rw [List.map_cons, List.getD_cons_succ, List.getD_cons_succ]
      exact getD_map_str f hf t i

/-- C7 (counterexample). The claim says records with unparseable
price/numeric fields are excluded without raising.  In V1 an accepted
row with Volume `"abc"` makes `float()` raise, aborting the whole read;
in V2 the row with Adj Close `"abc"` is RETAINED with the string left in
the renamed `price` column — neither revision excludes the record. -/
theorem numeric_failures_not_excluded :
    V1readDat "adj_close" datLines7a = .error "abc" ∧
    V2readDat "adj_close" datLines7b = .ok
      [[("ticker", .str "aaa"), ("volume", .num 10), ("date", .date ⟨2020, 1, 31⟩),
        ("price", .str "abc"), ("close", .num 100), ("open", .num 99),
        ("high", .num 102)]] :=
  ⟨by decide, by decide⟩

/-- C7 (amended). What the coercions actually do: (1) a V2 row whose
date parses is always assembled without raising — every numeric column
is converted only under the `isdigit`-style guard, under which `float`
cannot fail — and (2) a value failing that guard is left as the
(quote-stripped) string, the record kept; while (3) in V1 a `float()`
failure on the Volume field raises out of `read_dat` with that value. -/
theorem numeric_coercion_behaviour :
    (∀ t0 t1 t2 t3 t4 t5 t6 : String, ∀ d : Date,
      toDatetime (V2strip t2) = .ok d →
      V2row [t0, t1, t2, t3, t4, t5, t6] = .ok
        [("Ticker", .str (V2strip t0)), ("Volume", v2num (V2strip t1)),
         ("Date", .date d), ("Adj Close", v2num (V2strip t3)),
         ("Close", v2num (V2strip t4)), ("Open", v2num (V2strip t5)),
         ("High", v2num (V2strip t6))]) ∧
    (∀ s, isNumericV2 s = false → v2num s = .str s) ∧
    (∀ tokens : List String, pyFloat (V1strip (tokens.getD 1 "")) = none →
      V1row tokens = .error (V1strip (tokens.getD 1 ""))) := by
  refine ⟨?_, ?_, ?_⟩
  · intro t0 t1 t2 t3 t4 t5 t6 d hd
    have h0 : V2field "Ticker" t0 = .ok (.str (V2strip t0)) := by
      unfold V2field
      rw [if_neg (by decide), if_neg (by decide)]
    have h2 : V2field "Date" t2 = .ok (.date d) := by
      unfold V2field
      rw [if_neg (by decide), if_pos rfl, hd]
      rfl
    have h1 := v2field_numeric_ok "Volume" t1 (by decide)
    have h3 := v2field_numeric_ok "Adj Close" t3 (by decide)
    have h4 := v2field_numeric_ok "Close" t4 (by decide)
    have h5 := v2field_numeric_ok "Open" t5 (by decide)
    have h6 := v2field_numeric_ok "High" t6 (by decide)
    show (V2keys.zip [t0, t1, t2, t3, t4, t5, t6]).mapM _ = _
    rw [show V2keys.zip [t0, t1, t2, t3, t4, t5, t6] =
        [("Ticker", t0), ("Volume", t1), ("Date", t2), ("Adj Close", t3),
         ("Close", t4), ("Open", t5), ("High", t6)] from rfl]
    simp only [List.mapM_cons, List.mapM_nil, h0, h1, h2, h3, h4, h5, h6,
      Except.map, bind, Except.bind, pure, Except.pure]
  · intro s hn
    unfold v2num
    rw [if_neg (by rw [hn]; exact Bool.false_ne_true)]
  · intro tokens hfail
    simp only [V1row]
    have hfr : floatOrRaise ((tokens.map V1strip).getD 1 "") =
        .error (V1strip (tokens.getD 1 "")) := by
      unfold floatOrRaise
      rw [getD_map_str V1strip (by decide) tokens 1, hfail]
    rw [hfr]
    rfl

theorem numeric_coercion_behaviour_witness :
    V2row ["aaa", "10", "01-31-2020", "abc", "100", "99", "102"] = .ok
      [("Ticker", .str (V2strip "aaa")), ("Volume", v2num (V2strip "10")),
       ("Date", .date ⟨2020, 1, 31⟩), ("Adj Close", v2num (V2strip "abc")),
       ("Close", v2num (V2strip "100")), ("Open", v2num (V2strip "99")),
       ("High", v2num (V2strip "102"))] :=
  numeric_coercion_behaviour.1 "aaa" "10" "01-31-2020" "abc" "100" "99" "102"
    ⟨2020, 1, 31⟩ (by decide)

theorem map_pair_ok (k t : String) (y : String × Val)
    (h : (V2field k t).map (fun v => (k, v)) = .ok y) :
    ∃ v, V2field k t = .ok v ∧ y = (k, v) := by
  cases hf : V2field k t with
  | error e => rw [hf] at h; exact absurd h (by simp [Except.map])
  | ok v =>
      rw [hf] at h
      simp only [Except.map] at h
      cases h
      exact ⟨v, rfl, rfl⟩

/-- C8 (counterexample). The claim's positional order is ticker,
volume, date, adj_close, close, open, high (+ low).  The 8-field V1
template instead stores the fields in order ticker, volume, open, close,
high, low, adj_close, date: on a concrete row, field 2 lands in "Open"
and the date comes from field 7, not field 2. -/
theorem v1_row_storage_order_mismatch :
    V1row ["aaa", "1", "2", "3", "4", "5", "6", "01-31-2020"] =
      .ok [("Ticker", .str "aaa"), ("Volume", .num 1), ("Open", .num 2),
           ("Close", .num 3), ("High", .num 4), ("Low", .str "5"),
           ("Adj Close", .num 6), ("Date", .date ⟨2020, 1, 31⟩)] ∧
    V1keys.map normalizeName ≠ specKeys8 ∧
    V1keys.map normalizeName =
      ["ticker", "volume", "open", "close", "high", "low", "adj_close", "date"] :=
  ⟨by decide, by decide, by decide⟩

/-- C8 (amended). The 7-field V2 parser does store field `i` under
the `i`-th claimed column name (ticker, volume, date, adj_close, close,
open, high after normalization); the 8-field V1 parser stores its fields
in the order ticker, volume, open, close, high, low, adj_close, date
instead. -/
theorem row_field_storage_order (tokens : List String) (r : Row)
    (h7 : tokens.length = 7) (hr : V2row tokens = .ok r) :
    (r.map (fun p => normalizeName p.1) = specKeys7 ∧
      ∀ i, i < 7 → ∃ v, V2field (V2keys.getD i "") (tokens.getD i "") = .ok v ∧
        r.getD i ("", .str "NA") = (V2keys.getD i "", v)) ∧
    (∀ tks (r1 : Row), V1row tks = .ok r1 →
      r1.map (fun p => normalizeName p.1) =
        ["ticker", "volume", "open", "close", "high", "low", "adj_close", "date"]) := by
  constructor
  · obtain ⟨t0, t1, t2, t3, t4, t5, t6, rfl⟩ :
        ∃ a b c d e f g, tokens = [a, b, c, d, e, f, g] := by
      rcases tokens with _ | ⟨t0, _ | ⟨t1, _ | ⟨t2, _ | ⟨t3, _ | ⟨t4, _ |
        ⟨t5, _ | ⟨t6, _ | ⟨t7, rest⟩⟩⟩⟩⟩⟩⟩⟩ <;>
        first
          | exact ⟨_, _, _, _, _, _, _, rfl⟩
          | (exfalso; simp at h7)
    unfold V2row at hr
    rw [show (V2keys.zip [t0, t1, t2, t3, t4, t5, t6]) =
        [("Ticker", t0), ("Volume", t1), ("Date", t2), ("Adj Close", t3),
         ("Close", t4), ("Open", t5), ("High", t6)] from rfl] at hr
    rw [List.mapM_cons] at hr
    obtain ⟨y0, hy0, hr⟩ := except_bind_ok hr
    obtain ⟨ys1, hys1, hr⟩ := except_bind_ok hr
    rw [List.mapM_cons] at hys1
    obtain ⟨y1, hy1, hys1⟩ := except_bind_ok hys1
    obtain ⟨ys2, hys2, hys1⟩ := except_bind_ok hys1
    rw [List.mapM_cons] at hys2
    obtain ⟨y2, hy2, hys2⟩ := except_bind_ok hys2
    obtain ⟨ys3, hys3, hys2⟩ := except_bind_ok hys2
    rw [List.mapM_cons] at hys3
    obtain ⟨y3, hy3, hys3⟩ := except_bind_ok hys3
    obtain ⟨ys4, hys4, hys3⟩ := except_bind_ok hys3
    rw [List.mapM_cons] at hys4
    obtain ⟨y4, hy4, hys4⟩ := except_bind_ok hys4
    obtain ⟨ys5, hys5, hys4⟩ := except_bind_ok hys4
    rw [List.mapM_cons] at hys5
    obtain ⟨y5, hy5, hys5⟩ := except_bind_ok hys5
    obtain ⟨ys6, hys6, hys5⟩ := except_bind_ok hys5
    rw [List.mapM_cons] at hys6
    obtain ⟨y6, hy6, hys6⟩ := except_bind_ok hys6
    obtain ⟨ys7, hys7, hys6⟩ := except_bind_ok hys6
    simp only [List.mapM_nil, pure, Except.pure] at hys7
    cases hys7
    simp only [pure, Except.pure] at hr hys1 hys2 hys3 hys4 hys5 hys6
    cases hys6
    cases hys5
    cases hys4
    cases hys3
    cases hys2
    cases hys1
    cases hr
    obtain ⟨v0, hV0, rfl⟩ := map_pair_ok _ _ _ hy0
    obtain ⟨v1, hV1, rfl⟩ := map_pair_ok _ _ _ hy1
    obtain ⟨v2, hV2, rfl⟩ := map_pair_ok _ _ _ hy2
    obtain ⟨v3, hV3, rfl⟩ := map_pair_ok _ _ _ hy3
    obtain ⟨v4, hV4, rfl⟩ := map_pair_ok _ _ _ hy4
    obtain ⟨v5, hV5, rfl⟩ := map_pair_ok _ _ _ hy5
    obtain ⟨v6, hV6, rfl⟩ := map_pair_ok _ _ _ hy6
    constructor
    · rfl
    · intro i hi
      interval_cases i
      · exact ⟨v0, hV0, rfl⟩
      · exact ⟨v1, hV1, rfl⟩
      · exact ⟨v2, hV2, rfl⟩
      · exact ⟨v3, hV3, rfl⟩
      · exact ⟨v4, hV4, rfl⟩
      · exact ⟨v5, hV5, rfl⟩
      · exact ⟨v6, hV6, rfl⟩
  · intro tks r1 h1
    simp only [V1row] at h1
    obtain ⟨vol, hvol, h1⟩ := except_bind_ok h1
    obtain ⟨adj, hadj, h1⟩ := except_bind_ok h1
    obtain ⟨cls, hcls, h1⟩ := except_bind_ok h1
    obtain ⟨opn, hopn, h1⟩ := except_bind_ok h1
    obtain ⟨hgh, hhgh, h1⟩ := except_bind_ok h1
    obtain ⟨dt, hdt, h1⟩ := except_bind_ok h1
    cases h1
    rfl

theorem row_field_storage_order_witness :
    (([("Ticker", Val.str "bbb"), ("Volume", Val.num 10),
       ("Date", Val.date ⟨2020, 1, 31⟩), ("Adj Close", Val.num 101),
       ("Close", Val.num 100), ("Open", Val.num 99),
       ("High", Val.num 102)] : Row).map (fun p => normalizeName p.1) = specKeys7 ∧
      ∀ i, i < 7 → ∃ v, V2field (V2keys.getD i "")
          ((["bbb", "10", "01-31-2020", "101", "100", "99", "102"] : List String).getD i "")
          = .ok v ∧
        ([("Ticker", Val.str "bbb"), ("Volume", Val.num 10),
          ("Date", Val.date ⟨2020, 1, 31⟩), ("Adj Close", Val.num 101),
          ("Close", Val.num 100), ("Open", Val.num 99),
          ("High", Val.num 102)] : Row).getD i ("", .str "NA")
          = (V2keys.getD i "", v)) ∧
    (∀ tks (r1 : Row), V1row tks = .ok r1 →
      r1.map (fun p => normalizeName p.1) =
        ["ticker", "volume", "open", "close", "high", "low", "adj_close", "date"]) :=
  row_field_storage_order ["bbb", "10", "01-31-2020", "101", "100", "99", "102"]
    [("Ticker", Val.str "bbb"), ("Volume", Val.num 10),
     ("Date", Val.date ⟨2020, 1, 31⟩), ("Adj Close", Val.num 101),
     ("Close", Val.num 100), ("Open", Val.num 99), ("High", Val.num 102)]
    (by decide) (by decide)

theorem nat_min?_perm (xs ys : List Nat) (h : xs.Perm ys) : xs.min? = ys.min? := by
  cases hx : xs.min? with
  | none =>
      have hxe : xs = [] := List.min?_eq_none_iff.1 hx
      have hye : ys = [] := List.Perm.eq_nil (hxe ▸ h).symm
      rw [hye]
      rfl
  | some a =>
      obtain ⟨hmem, hub⟩ := List.min?_eq_some_iff'.1 hx
      symm
      rw [List.min?_eq_some_iff']
      exact ⟨h.mem_iff.1 hmem, fun b hb => hub b (h.mem_iff.2 hb)⟩

theorem nat_max?_perm (xs ys : List Nat) (h : xs.Perm ys) : xs.max? = ys.max? := by
  cases hx : xs.max? with
  | none =>
      have hxe : xs = [] := List.max?_eq_none_iff.1 hx
      have hye : ys = [] := List.Perm.eq_nil (hxe ▸ h).symm
      rw [hye]
      rfl
  | some a =>
      obtain ⟨hmem, hub⟩ := List.max?_eq_some_iff'.1 hx
      symm
      rw [List.max?_eq_some_iff']
      exact ⟨h.mem_iff.1 hmem, fun b hb => hub b (h.mem_iff.2 hb)⟩

theorem sortByDate_perm (rows : List (Date × ℚ)) : (sortByDate rows).Perm rows :=
  List.perm_insertionSort _ rows

theorem sortByDate_sorted (rows : List (Date × ℚ)) :
    List.Sorted (fun a b : Date × ℚ => dateIdx a.1 ≤ dateIdx b.1) (sortByDate rows) := by
  haveI : IsTotal (Date × ℚ) (fun a b => dateIdx a.1 ≤ dateIdx b.1) :=
    ⟨fun a b => Nat.le_total _ _⟩
  haveI : IsTrans (Date × ℚ) (fun a b => dateIdx a.1 ≤ dateIdx b.1) :=
    ⟨fun a b c hab hbc => Nat.le_trans hab hbc⟩
  exact List.sorted_insertionSort _ rows

theorem sortByDate_eq_of_perm (r1 r2 : List (Date × ℚ)) (h : r1.Perm r2)
    (hnd : (r1.map (fun p => dateIdx p.1)).Nodup) :
    sortByDate r1 = sortByDate r2 := by
  haveI : IsAntisymm (Date × ℚ) (fun a b : Date × ℚ => dateIdx a.1 < dateIdx b.1) :=
    ⟨fun a b hab hba => absurd (Nat.lt_trans hab hba) (Nat.lt_irrefl _)⟩
  have hp : (sortByDate r1).Perm (sortByDate r2) :=
    (sortByDate_perm r1).trans (h.trans (sortByDate_perm r2).symm)
  have key : ∀ l : List (Date × ℚ), (l.map (fun p => dateIdx p.1)).Nodup →
      List.Sorted (fun a b : Date × ℚ => dateIdx a.1 ≤ dateIdx b.1) l →
      List.Sorted (fun a b : Date × ℚ => dateIdx a.1 < dateIdx b.1) l := by
    intro l hl hs
    have hne : List.Pairwise (fun a b : Date × ℚ => dateIdx a.1 ≠ dateIdx b.1) l :=
      List.pairwise_map.1 hl
    exact (hs.and hne).imp (fun hab => Nat.lt_of_le_of_ne hab.1 hab.2)
  have hnd1 : ((sortByDate r1).map (fun p => dateIdx p.1)).Nodup :=
    ((sortByDate_perm r1).map _).nodup_iff.2 hnd
  have hnd2 : ((sortByDate r2).map (fun p => dateIdx p.1)).Nodup :=
    ((sortByDate_perm r2).map _).nodup_iff.2 (((h.map _).nodup_iff).1 hnd)
  exact List.eq_of_perm_of_sorted hp (key _ hnd1 (sortByDate_sorted r1))
    (key _ hnd2 (sortByDate_sorted r2))

theorem minMonth_perm (r1 r2 : List (Date × ℚ)) (h : r1.Perm r2) :
    minMonth r1 = minMonth r2 := by
  unfold minMonth
  rw [nat_min?_perm _ _ (h.map _)]

theorem maxMonth_perm (r1 r2 : List (Date × ℚ)) (h : r1.Perm r2) :
    maxMonth r1 = maxMonth r2 := by
  unfold maxMonth
  rw [nat_max?_perm _ _ (h.map _)]

theorem monthlyPrices_perm (r1 r2 : List (Date × ℚ)) (h : r1.Perm r2)
    (hnd : (r1.map (fun p => dateIdx p.1)).Nodup) :
    monthlyPrices r1 = monthlyPrices r2 := by
  have hsort := sortByDate_eq_of_perm r1 r2 h hnd
  have hlast : ∀ m, lastInMonth r1 m = lastInMonth r2 m := by
    intro m
    unfold lastInMonth
    rw [hsort]
  have hemp : r1.isEmpty = r2.isEmpty := by
    cases hr1 : r1 with
    | nil =>
        rw [hr1] at h
        rw [List.perm_nil.1 h.symm]
    | cons x t =>
        cases hr2 : r2 with
        | nil =>
            rw [hr1, hr2] at h
            exact absurd (List.perm_nil.1 h) (by simp)
        | cons y s => rfl
  unfold monthlyPrices
  rw [hemp, minMonth_perm r1 r2 h, maxMonth_perm r1 r2 h]
  simp only [hlast]

theorem monthlyReturns_perm (r1 r2 : List (Date × ℚ)) (h : r1.Perm r2)
    (hnd : (r1.map (fun p => dateIdx p.1)).Nodup) :
    monthlyReturns r1 = monthlyReturns r2 := by
  unfold monthlyReturns
  rw [monthlyPrices_perm r1 r2 h hnd]

/-- C5 (counterexample). `rows5p` permutes the date-sorted `rows5s` (the
last two February rows swapped).  The resampler's internal stable sort
keeps the February month-end price at 133.1, so both orderings emit the
same monthly return 331/1000 — but `pct_change` on the daily prices is
positional, so the February daily returns change from 1/10, 1/10, 1/10
to 1/10, 21/100, -1/11 and the emitted volatility differs.  The output
is therefore not identical across row orderings of the same records,
refuting the claim; the divergence is confined to the volatility. -/
theorem aggregator_output_depends_on_row_order :
    rows5s.Perm rows5p ∧
    calc_monthly_ret_and_vol rows5s = .ok outC5s ∧
    calc_monthly_ret_and_vol rows5p = .ok outC5p ∧
    outC5s.map (fun s => (s.mdate, s.mret)) = outC5p.map (fun s => (s.mdate, s.mret)) ∧
    calc_monthly_ret_and_vol rows5s ≠ calc_monthly_ret_and_vol rows5p :=
  ⟨by decide, by decide, by decide, by decide, by decide⟩

/-- C5 (amended). The aggregator itself never sorts; only `resample`
does (pandas' Resampler stably sorts the series by its index before
binning), so month-end prices and the monthly-return series do not
depend on the row order, while the daily returns come from `pct_change`
on the rows as given, so the volatility does.  Hence: (1) any two
strictly date-ascending orderings of the same records produce identical
output, and (2) for any two orderings of a ticker group with pairwise
distinct dates, the emitted (month, return) pairs agree whenever both
runs succeed — the counterexample shows the volatilities can differ. -/
theorem aggregator_order_effects :
    (∀ l1 l2 : List CalcRow, strictByDate l1 = true → strictByDate l2 = true →
      l1.Perm l2 → calc_monthly_ret_and_vol l1 = calc_monthly_ret_and_vol l2) ∧
    (∀ (t : String) (r1 r2 : List (Date × ℚ)) (out1 out2 : List MonthlyStat),
      r1.Perm r2 → (r1.map (fun p => dateIdx p.1)).Nodup →
      calcTicker t r1 = .ok out1 → calcTicker t r2 = .ok out2 →
      out1.map (fun s => (s.mdate, s.mret)) = out2.map (fun s => (s.mdate, s.mret))) := by
  constructor
  · intro l1 l2 h1 h2 hp
    haveI : IsAntisymm CalcRow (fun a b : CalcRow => dateIdx a.date < dateIdx b.date) :=
      ⟨fun a b h h' => absurd (Nat.lt_trans h h') (Nat.lt_irrefl _)⟩
    have he : l1 = l2 :=
      List.eq_of_perm_of_sorted hp (strictByDate_pairwise l1 h1)
        (strictByDate_pairwise l2 h2)
    rw [he]
  · intro t r1 r2 out1 out2 hp hnd h1 h2
    rw [calcTicker_ok_proj t r1 out1 h1, calcTicker_ok_proj t r2 out2 h2]
    exact monthlyReturns_perm r1 r2 hp hnd

theorem aggregator_order_effects_witness :
    calc_monthly_ret_and_vol rowsW5 = calc_monthly_ret_and_vol rowsW5 ∧
    outC5s.map (fun s => (s.mdate, s.mret)) = outC5p.map (fun s => (s.mdate, s.mret)) :=
  ⟨aggregator_order_effects.1 rowsW5 rowsW5 (by decide) (by decide)
      (List.Perm.refl rowsW5),
   aggregator_order_effects.2 "aaa" (groupRows rows5s "aaa") (groupRows rows5p "aaa")
      outC5s outC5p (by decide) (by decide) (by decide) (by decide)⟩
